import Mathlib

/-!
Verification of the vmcp tool-attribution core.

Shallow embedding of:
- `src/vmcp/tool_orchestrator.py` (`ToolBasedScanOrchestrator._group_by_tool`),
- `src/vmcp/utils/call_graph.py` (`CallGraphBuilder`),
- `src/vmcp/utils/tool_detector.py` (`ToolDetector.detect_tools`).

Python `pathlib` path arithmetic is modelled on strings via path components
(splitting on the slash character, dropping empty components and single-dot
components, as `pathlib` does when parsing). The filesystem and the per-file
parser outputs are abstracted into a `Repo` record: `files` is the set of
repository-relative paths of existing files, and `pyImports`/`jsImports` give,
per file, the list of import specifiers that the Python `ast` walk / the
JavaScript regex scan of that file's text produces (`none` models a read or
parse failure, which the code converts to an empty contribution).
-/

namespace Vmcp

/-! ### String and path helpers (model of the `pathlib` operations used) -/

/-- Split a list of characters at a separator; accumulator holds the current
piece reversed. Mirrors Python `str.split(sep)` for a one-character `sep`. -/
def chSplit (sep : Char) : List Char → List Char → List String
  | cur, [] => [String.mk cur.reverse]
  | cur, c :: rest =>
    if c = sep then String.mk cur.reverse :: chSplit sep [] rest
    else chSplit sep (c :: cur) rest

/-- Python `s.split(sep)` for a single-character separator. -/
def splitChar (sep : Char) (s : String) : List String :=
  chSplit sep [] s.data

/-- Join pieces with a separator string (Python `sep.join(parts)`). -/
def joinSep (sep : String) : List String → String
  | [] => ""
  | [x] => x
  | x :: xs => x ++ sep ++ joinSep sep xs

/-- The components of a path as `pathlib` parses them: split on the slash,
drop empty pieces and single-dot pieces (the anchor is tracked separately
via `isAbsolutePath`). -/
def pathComps (s : String) : List String :=
  (splitChar '/' s).filter (fun c => ¬(c = "" ∨ c = "."))

/-- Python `Path(s).is_absolute()` on POSIX: the path starts with a slash. -/
def isAbsolutePath (s : String) : Bool :=
  match s.data with
  | '/' :: _ => true
  | _ => false

/-- Python `Path(s).name`: the final path component, or the empty string when
there is none. -/
def baseName (s : String) : String :=
  (pathComps s).getLast?.getD ""

/-- Scan the reversed character list of a file name for the last dot of the
original name; returns the suffix from that dot when the dot is neither the
first nor the last character (CPython `PurePath.suffix` rule). -/
def sufAux : List Char → List Char → Option (List Char)
  | _, [] => none
  | acc, c :: rest =>
    if c = '.' then
      if acc = [] ∨ rest = [] then none else some ('.' :: acc)
    else sufAux (c :: acc) rest

/-- Python `Path(s).suffix`. -/
def pathSuffix (s : String) : String :=
  match sufAux [] (baseName s).data.reverse with
  | some l => String.mk l
  | none => ""

/-- Python `Path(p).relative_to(base)` followed by `str(...)`: defined when
both paths have the same anchor and `base`'s components are a prefix of `p`'s;
the empty remainder renders as a single dot. `none` models the raised
`ValueError`. -/
def relativeTo (p base : String) : Option String :=
  if isAbsolutePath p = isAbsolutePath base ∧ (pathComps base).isPrefixOf (pathComps p) then
    some (match (pathComps p).drop (pathComps base).length with
          | [] => "."
          | rest => joinSep "/" rest)
  else none

/-- One step of Python `str.replace(old, new)` with nonempty `old`, on
character lists, with a fuel bound (each step consumes at least one character,
so fuel `l.length + 1` is always enough). -/
def replFuel (old new : List Char) : Nat → List Char → List Char
  | 0, l => l
  | _ + 1, [] => []
  | fuel + 1, c :: rest =>
    if old.isPrefixOf (c :: rest) then
      new ++ replFuel old new fuel ((c :: rest).drop old.length)
    else c :: replFuel old new fuel rest

/-- Python `s.replace(old, new)`: replace every non-overlapping occurrence,
left to right. (The code only calls it with a nonempty `old`; for an empty
`old` we return `s` unchanged, a case the code never reaches.) -/
def pyReplace (s old new : String) : String :=
  if old = "" then s
  else String.mk (replFuel old.data new.data (s.data.length + 1) s.data)

/-! ### Data model -/

/-- `MCPTool` from `src/vmcp/utils/tool_detector.py`. -/
structure MCPTool where
  name : String
  file_path : String
  description : String
  line_number : Nat
  language : String
  deriving DecidableEq, Repr

/-- `VulnerabilityModel` from `src/vmcp/models.py`, restricted to the fields
the attribution core reads (`file_location`) plus identifying fields; all
other fields are scanner-specific and opaque to the core, which moves records
wholesale. `file_location = none` models the Python `None` default. -/
structure VulnerabilityModel where
  id : String
  severity : String
  file_location : Option String
  deriving DecidableEq, Repr

/-- Python truthiness of the `file_location` field (`None` and the empty
string are falsy). -/
def locTruthy : Option String → Bool
  | none => false
  | some s => !(s == "")

/-! ### Abstract repository (filesystem and per-file parser output) -/

/-- Abstraction of the repository snapshot the call-graph builder walks:
`files` are the repository-relative paths of existing files; `pyImports f`
is the list of module names collected by the `ast` walk of file `f`
(`ast.Import` member names and `ast.ImportFrom` modules, in walk order),
`none` when reading or parsing `f` raises; `jsImports f` likewise gives the
regex-matched import specifiers of a JS/TS file, `none` when reading raises. -/
structure Repo where
  files : List String
  pyImports : String → Option (List String)
  jsImports : String → Option (List String)

/-! ### Attribution engine (`ToolBasedScanOrchestrator._group_by_tool`) -/

/-- The fixed `dependency_files` set of `_group_by_tool`. -/
def dependencyFiles : List String :=
  ["package.json", "package-lock.json", "yarn.lock", "pnpm-lock.yaml",
   "requirements.txt", "setup.py", "pyproject.toml", "Pipfile", "poetry.lock",
   "go.mod", "go.sum", "Cargo.toml", "Cargo.lock",
   "Gemfile", "Gemfile.lock", "composer.json", "composer.lock"]

/-- Path normalization inside `_group_by_tool`: an absolute location is made
relative to the repo root when possible; when `relative_to` raises, the code
falls back to deleting every occurrence of `repoPath ++ "/"` from the string. -/
def normalizeLoc (repoPath loc : String) : String :=
  if isAbsolutePath loc then
    match relativeTo loc repoPath with
    | some r => r
    | none => pyReplace loc (repoPath ++ "/") ""
  else loc

/-- The bucket key `_group_by_tool` assigns to one vulnerability: the literal
decision chain of the loop body (dependency-filename check first, then the
first closure in map order containing the normalized path, then the
missing-location rule, else `unknown`). -/
def classifyVuln (repoPath : String) (graphs : List (String × List String))
    (v : VulnerabilityModel) : String :=
  match v.file_location with
  | none => "dependencies"
  | some loc =>
    if loc = "" then "dependencies"
    else
      let fp := normalizeLoc repoPath loc
      if baseName fp ∈ dependencyFiles then "dependencies"
      else
        match graphs.find? (fun g => decide (fp ∈ g.2)) with
        | some g => g.1
        | none => "unknown"

/-- Python dict assignment `d[k] = v`: overwrite in place when the key exists
(keeping its position), else append the new entry. -/
def dictSet {α : Type} : List (String × α) → String → α → List (String × α)
  | [], k, v => [(k, v)]
  | (k', v') :: rest, k, v =>
    if k' = k then (k, v) :: rest else (k', v') :: dictSet rest k v

/-- Apply `f` to the value stored at the first occurrence of key `k`
(Python `d[k].append(x)` is `dictUpd d k (· ++ [x])`; the key is always
present at every call site, so the missing-key case is unreachable there). -/
def dictUpd {α : Type} : List (String × α) → String → (α → α) → List (String × α)
  | [], _, _ => []
  | (k', v') :: rest, k, f =>
    if k' = k then (k', f v') :: rest else (k', v') :: dictUpd rest k f

/-- Python dict lookup `d.get(k)`. -/
def dictGet {α : Type} (d : List (String × α)) (k : String) : Option α :=
  (d.find? (fun p => p.1 == k)).map (·.2)

/-- The initial `tool_vulns` dict of `_group_by_tool`: one empty bucket per
detected tool, then the two special categories. -/
def initToolVulns (tools : List MCPTool) : List (String × List VulnerabilityModel) :=
  dictSet (dictSet (tools.foldl (fun d t => dictSet d t.name ([] : List VulnerabilityModel)) [])
    "dependencies" ([] : List VulnerabilityModel)) "unknown" ([] : List VulnerabilityModel)

/-- `ToolBasedScanOrchestrator._group_by_tool`: fold the vulnerability list
over the bucket dict in input order, then drop empty buckets. -/
def groupByTool (repoPath : String) (tools : List MCPTool)
    (graphs : List (String × List String)) (vulns : List VulnerabilityModel) :
    List (String × List VulnerabilityModel) :=
  (vulns.foldl (fun d v => dictUpd d (classifyVuln repoPath graphs v) (· ++ [v]))
    (initToolVulns tools)).filter (fun p => !p.2.isEmpty)

/-! ### Call graph builder (`CallGraphBuilder` in `src/vmcp/utils/call_graph.py`) -/

/-- Set-insertion on a duplicate-free list (Python `set.add`; list order is
the insertion order, membership is what the claims consume). -/
def setAdd (l : List String) (x : String) : List String :=
  if x ∈ l then l else l ++ [x]

/-- Python `set.update`: fold `setAdd` over the added elements. -/
def setUnion (l m : List String) : List String :=
  m.foldl setAdd l

/-- `CallGraphBuilder._resolve_python_import`: probe, in order, the dotted
module path as a direct `.py` file, as a package `__init__.py`, and the last
dotted component next to the importing file; each existing candidate is
appended (duplicates included, as in the Python list). The
`repo_path in relative_file.parents` guard of the third candidate is always
true for repository-relative importer paths, since the candidate is a
nonempty relative path joined under the repo root. -/
def resolvePythonImport (repo : Repo) (importName : String) (rel : String) : List String :=
  let parts := splitChar '.' importName
  let c1 := joinSep "/" parts ++ ".py"
  let c2 := joinSep "/" parts ++ "/__init__.py"
  let c3 := joinSep "/" ((pathComps rel).dropLast ++ [parts.getLast?.getD "" ++ ".py"])
  (if c1 ∈ repo.files then [c1] else []) ++
    (if c2 ∈ repo.files then [c2] else []) ++
      (if c3 ∈ repo.files then [c3] else [])

/-- `CallGraphBuilder._build_python_graph` with the shared mutable `visited`
set threaded explicitly; returns the collected dependencies and the final
visited set. The fuel argument only bounds the recursion depth; every call
that recurses first moves its unvisited file into `visited`, so fuel
`repo.files.length + 1` is never exhausted (claim C4 proves fuel-stability on
the cycle scenario). A `none` parse result models the caught exception, which
returns the (then empty) dependency set. -/
def buildPythonGraph (repo : Repo) : Nat → String → List String → List String × List String
  | 0, _, visited => ([], visited)
  | fuel + 1, rel, visited =>
    if rel ∈ visited then ([], visited)
    else
      match repo.pyImports rel with
      | none => ([], rel :: visited)
      | some imps =>
        imps.foldl (fun acc imp =>
          (resolvePythonImport repo imp rel).foldl (fun acc2 rp =>
            let deps2 := setAdd acc2.1 rp
            if rp ∈ repo.files ∧ pathSuffix rp = ".py" then
              let r := buildPythonGraph repo fuel rp acc2.2
              (setUnion deps2 r.1, r.2)
            else (deps2, acc2.2)) acc) ([], rel :: visited)

/-- Collapse the dot components of a joined path the way `Path.resolve()`
does lexically: skip empty and single-dot pieces, pop on a double-dot;
`none` when a double-dot climbs above the repository root (the resolved
path then falls outside the repository). -/
def resolveDotsAux : List String → List String → Option (List String)
  | acc, [] => some acc.reverse
  | acc, c :: rest =>
    if c = "" ∨ c = "." then resolveDotsAux acc rest
    else if c = ".." then
      match acc with
      | [] => none
      | _ :: t => resolveDotsAux t rest
    else resolveDotsAux (c :: acc) rest

/-- Python `import_path.startswith(".")`: only relative specifiers are
resolved by the JavaScript walk. -/
def importPathIsRelative (s : String) : Bool :=
  match s.data with
  | '.' :: _ => true
  | _ => false

/-- `CallGraphBuilder._resolve_javascript_import`. The extension loop tries
`.ts` first; when that candidate does not exist under the repository, the
`index_file` expression of the same iteration evaluates `Path + str`, which
raises `TypeError` (caught by the caller's `except`), so no later extension is
ever probed: the resolution either returns the single `.ts` candidate or
raises. `Except.error` models the raised exception. -/
def resolveJavascriptImport (repo : Repo) (rel : String) (importPath : String) :
    Except Unit (List String) :=
  match resolveDotsAux [] ((pathComps rel).dropLast ++ splitChar '/' importPath) with
  | none => Except.error ()
  | some [] => Except.error ()
  | some cs =>
    let cand := joinSep "/" cs ++ ".ts"
    if cand ∈ repo.files then Except.ok [cand] else Except.error ()

/-- `CallGraphBuilder._build_javascript_graph`: like the Python walk, but a
resolution exception aborts the remaining import specifiers of the current
file (the `except` wraps the whole regex loop), keeping the dependencies
collected so far; non-relative specifiers are skipped. The Boolean in the
fold state records that the exception fired. -/
def buildJavascriptGraph (repo : Repo) : Nat → String → List String → List String × List String
  | 0, _, visited => ([], visited)
  | fuel + 1, rel, visited =>
    if rel ∈ visited then ([], visited)
    else
      match repo.jsImports rel with
      | none => ([], rel :: visited)
      | some imps =>
        (imps.foldl (fun acc imp =>
          if acc.2 then acc
          else if ¬importPathIsRelative imp then acc
          else
            match resolveJavascriptImport repo rel imp with
            | Except.error _ => ((acc.1.1, acc.1.2), true)
            | Except.ok rps =>
              (rps.foldl (fun acc2 rp =>
                let deps2 := setAdd acc2.1 rp
                if rp ∈ repo.files ∧ pathSuffix rp ∈ [".js", ".ts", ".jsx", ".tsx"] then
                  let r := buildJavascriptGraph repo fuel rp acc2.2
                  (setUnion deps2 r.1, r.2)
                else (deps2, acc2.2)) acc.1, false))
          (([], rel :: visited), false)).1

/-- `CallGraphBuilder._build_tool_graph`: the closure always starts from the
anchor file; a registered language resolver contributes the recursive walk,
run with fuel `repo.files.length + 1` (more than the walk can ever consume). -/
def buildToolGraph (repo : Repo) (tool : MCPTool) : List String :=
  let deps := [tool.file_path]
  if tool.file_path ∈ repo.files then
    if tool.language = "python" then
      setUnion deps (buildPythonGraph repo (repo.files.length + 1) tool.file_path []).1
    else if tool.language = "typescript" ∨ tool.language = "javascript" then
      setUnion deps (buildJavascriptGraph repo (repo.files.length + 1) tool.file_path []).1
    else deps
  else deps

/-- `CallGraphBuilder.build_graphs`: one dict assignment per tool, in list
order (a later tool with the same name overwrites the earlier closure). -/
def buildGraphs (repo : Repo) (tools : List MCPTool) : List (String × List String) :=
  tools.foldl (fun d t => dictSet d t.name (buildToolGraph repo t)) []

/-! ### Detection coordinator (`ToolDetector.detect_tools`) -/

/-- The placeholder tool synthesized when no tools are found but the
repository looks like an MCP server (`tool_detector.py`, lines 304-311):
`file_path` is `str(self.repo_path)`, the configured repository root. -/
def placeholderTool (repoPath : String) : MCPTool :=
  ⟨"unknown", repoPath, "MCP server with undetected tools", 0, "unknown"⟩

/-- The static phase of `detect_tools`: concatenated static extractor output,
then the placeholder fallback. The Boolean result records that the static
extractors were invoked. -/
def staticPhase (staticTools : List MCPTool) (isMcp : Bool) (repoPath : String) :
    List MCPTool × Bool :=
  if staticTools.isEmpty ∧ isMcp then ([placeholderTool repoPath], true)
  else (staticTools, true)

/-- `ToolDetector.detect_tools` control flow. `runtime` is the outcome of the
runtime-discovery attempt (`Except.error` models any raised exception,
including spawn failures); `loopRunning` models `asyncio.get_running_loop()`
succeeding, which skips runtime detection; `staticTools` is the concatenation
of all static detector results in registration order; `isMcp` is
`_is_any_mcp_server()`. Returns the tool list and whether the static
extractors were invoked. -/
def detectTools (useRuntime loopRunning : Bool) (runtime : Except Unit (List MCPTool))
    (staticTools : List MCPTool) (isMcp : Bool) (repoPath : String) : List MCPTool × Bool :=
  if useRuntime then
    if loopRunning then staticPhase staticTools isMcp repoPath
    else
      match runtime with
      | Except.ok ts =>
        if ts.isEmpty then staticPhase staticTools isMcp repoPath else (ts, false)
      | Except.error _ => staticPhase staticTools isMcp repoPath
  else staticPhase staticTools isMcp repoPath

/-! ### Concrete instances used by the claims -/

/-- Two-file repository with a mutual import cycle: `a.py` imports `b`,
`b.py` imports `a`. -/
def cycleRepo : Repo :=
  ⟨["a.py", "b.py"],
   fun s => if s = "a.py" then some ["b"] else if s = "b.py" then some ["a"] else none,
   fun _ => none⟩

def cycleToolA : MCPTool := ⟨"A", "a.py", "", 1, "python"⟩

def cycleToolB : MCPTool := ⟨"B", "b.py", "", 1, "python"⟩

/-- Repository for the category-name collision scenario: two import-free
source files. -/
def sharedNameRepo : Repo :=
  ⟨["a.py", "u.py"],
   fun s => if s = "a.py" ∨ s = "u.py" then some [] else none,
   fun _ => none⟩

def depNamedTool : MCPTool := ⟨"dependencies", "a.py", "", 1, "python"⟩

def unkNamedTool : MCPTool := ⟨"unknown", "u.py", "", 1, "python"⟩

/-- Concrete findings and closure map used by the claim witnesses. -/
def wVulnA : VulnerabilityModel := ⟨"w1", "HIGH", some "a.py"⟩

def wVulnDep : VulnerabilityModel := ⟨"w2", "CRITICAL", some "requirements.txt"⟩

def wVulnNone : VulnerabilityModel := ⟨"w3", "LOW", none⟩

def wVulnAbs : VulnerabilityModel := ⟨"w4", "LOW", some "/other/x.py"⟩

def wVulnUnk : VulnerabilityModel := ⟨"w5", "LOW", some "zzz.bin"⟩

/-- Finding at an absolute path under the repo root `/repo`. -/
def wVulnUnder : VulnerabilityModel := ⟨"w6", "LOW", some "/repo/a/x.py"⟩

def wTools : List MCPTool := [cycleToolA]

/-- A closure map that also contains the dependency-manifest path
`requirements.txt`, to exercise the priority of the filename check. -/
def wGraphs : List (String × List String) := [("A", ["a.py", "requirements.txt"])]

/-- Two tools sharing one name, anchored at different files. -/
def dupToolOne : MCPTool := ⟨"X", "a.py", "", 1, "python"⟩

def dupToolTwo : MCPTool := ⟨"X", "b.py", "", 2, "python"⟩

def xVulnU : VulnerabilityModel := ⟨"x1", "HIGH", some "u.py"⟩

/-! ### Dictionary and set lemmas -/

theorem mem_setAdd_left {l : List String} {x a : String} (h : a ∈ l) : a ∈ setAdd l x := by
  unfold setAdd
  split
  · exact h
  · exact List.mem_append_left _ h

theorem mem_setUnion_left {m l : List String} {a : String} (h : a ∈ l) : a ∈ setUnion l m := by
  induction m generalizing l with
  | nil => exact h
  | cons x xs ih => exact ih (mem_setAdd_left h)

theorem mem_dictSet {α : Type} {d : List (String × α)} {k : String} {v : α} {p : String × α}
    (h : p ∈ dictSet d k v) : p ∈ d ∨ p = (k, v) := by
  induction d with
  | nil => simpa [dictSet] using h
  | cons q rest ih =>
    rw [show dictSet (q :: rest) k v
        = if q.1 = k then (k, v) :: rest else q :: dictSet rest k v from rfl] at h
    split at h
    · rcases List.mem_cons.mp h with h' | h'
      · exact Or.inr h'
      · exact Or.inl (List.mem_cons_of_mem _ h')
    · rcases List.mem_cons.mp h with h' | h'
      · exact Or.inl (h' ▸ List.mem_cons_self _ _)
      · rcases ih h' with h'' | h''
        · exact Or.inl (List.mem_cons_of_mem _ h'')
        · exact Or.inr h''

theorem dictSet_keys_mem {α : Type} {d : List (String × α)} {k : String} {v : α} {a : String} :
    a ∈ (dictSet d k v).map Prod.fst ↔ a ∈ d.map Prod.fst ∨ a = k := by
  induction d with
  | nil => simp [dictSet]
  | cons q rest ih =>
    rw [show dictSet (q :: rest) k v
        = if q.1 = k then (k, v) :: rest else q :: dictSet rest k v from rfl]
    split
    · rename_i hq
      simp only [List.map_cons, List.mem_cons, ih, hq]
      tauto
    · simp only [List.map_cons, List.mem_cons, ih]
      tauto

theorem dictSet_keys_nodup {α : Type} {d : List (String × α)} {k : String} {v : α}
    (h : (d.map Prod.fst).Nodup) : ((dictSet d k v).map Prod.fst).Nodup := by
  induction d with
  | nil => simp [dictSet]
  | cons q rest ih =>
    rw [show dictSet (q :: rest) k v
        = if q.1 = k then (k, v) :: rest else q :: dictSet rest k v from rfl]
    rw [List.map_cons] at h
    rcases List.nodup_cons.mp h with ⟨hq, hrest⟩
    split
    · rename_i he
      simp only [List.map_cons, List.nodup_cons]
      exact ⟨he ▸ hq, hrest⟩
    · rename_i he
      simp only [List.map_cons, List.nodup_cons]
      refine ⟨fun hc => ?_, ih hrest⟩
      rcases dictSet_keys_mem.mp hc with hc' | hc'
      · exact hq hc'
      · exact he hc'

theorem dictUpd_keys {α : Type} (d : List (String × α)) (k : String) (f : α → α) :
    (dictUpd d k f).map Prod.fst = d.map Prod.fst := by
  induction d with
  | nil => rfl
  | cons q rest ih =>
    rw [show dictUpd (q :: rest) k f
        = if q.1 = k then (q.1, f q.2) :: rest else q :: dictUpd rest k f from rfl]
    split <;> simp [ih]

theorem map_upd_noop {α : Type} {rest : List (String × α)} {k : String} {f : α → α}
    (h : ∀ p ∈ rest, p.1 ≠ k) :
    rest.map (fun p => if p.1 = k then (p.1, f p.2) else p) = rest := by
  induction rest with
  | nil => rfl
  | cons q tl ih =>
    simp only [List.map_cons, if_neg (h q (List.mem_cons_self _ _))]
    rw [ih (fun p hp => h p (List.mem_cons_of_mem _ hp))]

theorem dictUpd_eq_map {α : Type} {d : List (String × α)} {k : String} {f : α → α}
    (h : (d.map Prod.fst).Nodup) :
    dictUpd d k f = d.map (fun p => if p.1 = k then (p.1, f p.2) else p) := by
  induction d with
  | nil => rfl
  | cons q rest ih =>
    rw [List.map_cons] at h
    rcases List.nodup_cons.mp h with ⟨hq, hrest⟩
    rw [show dictUpd (q :: rest) k f
        = if q.1 = k then (q.1, f q.2) :: rest else q :: dictUpd rest k f from rfl]
    split
    · rename_i he
      simp only [List.map_cons, if_pos he]
      rw [map_upd_noop (fun p hp hpk => hq (by rw [he, ← hpk]; exact List.mem_map_of_mem _ hp))]
    · rename_i he
      simp only [List.map_cons, if_neg he]
      rw [ih hrest]

/-! ### Characterization of the attribution fold -/

theorem foldUpd_char (cf : VulnerabilityModel → String) :
    ∀ (vulns : List VulnerabilityModel) (d : List (String × List VulnerabilityModel)),
    (d.map Prod.fst).Nodup →
    vulns.foldl (fun d v => dictUpd d (cf v) (· ++ [v])) d
      = d.map (fun p => (p.1, p.2 ++ vulns.filter (fun v => cf v == p.1)))
  | [], d, _ => by simp
  | v :: vs, d, h => by
    rw [List.foldl_cons,
      foldUpd_char cf vs _ (by rw [dictUpd_keys]; exact h),
      dictUpd_eq_map h, List.map_map]
    apply List.map_congr_left
    intro p _
    by_cases hp : p.1 = cf v
    · have hb : (cf v == p.1) = true := by simp [hp]
      simp only [Function.comp_apply, if_pos hp, List.filter_cons, hb]
      simp
    · have hb : (cf v == p.1) = false := by
        simp only [beq_eq_false_iff_ne, ne_eq]
        exact fun he => hp he.symm
      simp only [Function.comp_apply, if_neg hp, List.filter_cons, hb]
      simp

theorem foldl_dictSet_entry {α : Type} (g : MCPTool → α) :
    ∀ (tools : List MCPTool) (d : List (String × α)) (p : String × α),
    p ∈ tools.foldl (fun d t => dictSet d t.name (g t)) d →
    p ∈ d ∨ ∃ t, t ∈ tools ∧ p = (t.name, g t)
  | [], _, _, h => Or.inl h
  | t :: ts, d, p, h => by
    rcases foldl_dictSet_entry g ts _ p h with h' | ⟨u, hu, he⟩
    · rcases mem_dictSet h' with h'' | he
      · exact Or.inl h''
      · exact Or.inr ⟨t, List.mem_cons_self _ _, he⟩
    · exact Or.inr ⟨u, List.mem_cons_of_mem _ hu, he⟩

theorem foldl_dictSet_keys_mem {α : Type} (g : MCPTool → α) :
    ∀ (tools : List MCPTool) (d : List (String × α)) (a : String),
    (a ∈ (tools.foldl (fun d t => dictSet d t.name (g t)) d).map Prod.fst
      ↔ a ∈ d.map Prod.fst ∨ ∃ t ∈ tools, a = t.name)
  | [], d, a => by simp
  | t :: ts, d, a => by
    rw [List.foldl_cons, foldl_dictSet_keys_mem g ts _ a, dictSet_keys_mem]
    simp only [List.mem_cons]
    constructor
    · rintro ((h | h) | ⟨u, hu, he⟩)
      · exact Or.inl h
      · exact Or.inr ⟨t, Or.inl rfl, h⟩
      · exact Or.inr ⟨u, Or.inr hu, he⟩
    · rintro (h | ⟨u, hu | hu, he⟩)
      · exact Or.inl (Or.inl h)
      · exact Or.inl (Or.inr (hu ▸ he))
      · exact Or.inr ⟨u, hu, he⟩

theorem foldl_dictSet_keys_nodup {α : Type} (g : MCPTool → α) :
    ∀ (tools : List MCPTool) (d : List (String × α)),
    (d.map Prod.fst).Nodup →
    ((tools.foldl (fun d t => dictSet d t.name (g t)) d).map Prod.fst).Nodup
  | [], _, h => h
  | _ :: ts, _, h =>
    foldl_dictSet_keys_nodup g ts _ (dictSet_keys_nodup h)

theorem initToolVulns_val {tools : List MCPTool} {p : String × List VulnerabilityModel}
    (h : p ∈ initToolVulns tools) : p.2 = [] := by
  unfold initToolVulns at h
  rcases mem_dictSet h with h | he
  · rcases mem_dictSet h with h | he
    · rcases foldl_dictSet_entry _ tools [] p h with h | ⟨_, _, he⟩
      · simp at h
      · rw [he]
    · rw [he]
  · rw [he]

theorem initToolVulns_keys_nodup (tools : List MCPTool) :
    ((initToolVulns tools).map Prod.fst).Nodup :=
  dictSet_keys_nodup (dictSet_keys_nodup
    (foldl_dictSet_keys_nodup _ tools [] (by simp)))

theorem mem_initToolVulns_keys {tools : List MCPTool} {a : String} :
    a ∈ (initToolVulns tools).map Prod.fst
      ↔ a ∈ tools.map MCPTool.name ∨ a = "dependencies" ∨ a = "unknown" := by
  unfold initToolVulns
  rw [dictSet_keys_mem, dictSet_keys_mem, foldl_dictSet_keys_mem]
  simp only [List.map_nil, List.not_mem_nil, false_or, List.mem_map]
  constructor
  · rintro ((⟨t, ht, he⟩ | h) | h)
    · exact Or.inl ⟨t, ht, he.symm⟩
    · exact Or.inr (Or.inl h)
    · exact Or.inr (Or.inr h)
  · rintro (⟨t, ht, he⟩ | h | h)
    · exact Or.inl (Or.inl ⟨t, ht, he.symm⟩)
    · exact Or.inl (Or.inr h)
    · exact Or.inr h

/-- The bucket map `_group_by_tool` returns: one bucket per initial key,
holding the vulnerabilities classified to that key in input order, with the
empty buckets dropped. -/
theorem groupByTool_char (rp : String) (tools : List MCPTool)
    (graphs : List (String × List String)) (vulns : List VulnerabilityModel) :
    groupByTool rp tools graphs vulns
      = ((initToolVulns tools).map
          (fun p => (p.1, vulns.filter (fun v => classifyVuln rp graphs v == p.1)))).filter
          (fun p => !p.2.isEmpty) := by
  unfold groupByTool
  rw [foldUpd_char _ vulns _ (initToolVulns_keys_nodup tools)]
  congr 1
  apply List.map_congr_left
  intro p hp
  rw [initToolVulns_val hp]
  simp

/-! ### Key-membership of the classification -/

theorem classify_key_mem {rp : String} {tools : List MCPTool}
    {graphs : List (String × List String)}
    (hg : ∀ p ∈ graphs, p.1 ∈ tools.map MCPTool.name ∨ p.1 = "dependencies" ∨ p.1 = "unknown")
    (v : VulnerabilityModel) :
    classifyVuln rp graphs v ∈ (initToolVulns tools).map Prod.fst := by
  rw [mem_initToolVulns_keys]
  unfold classifyVuln
  cases hfl : v.file_location with
  | none => simp
  | some loc =>
    by_cases h1 : loc = ""
    · simp [h1]
    · simp only [if_neg h1]
      by_cases h2 : baseName (normalizeLoc rp loc) ∈ dependencyFiles
      · simp [h2]
      · simp only [if_neg h2]
        cases hf : graphs.find? (fun g => decide (normalizeLoc rp loc ∈ g.2)) with
        | none => simp
        | some g => exact hg g (List.mem_of_find?_eq_some hf)

/-- A vulnerability always lands in the bucket keyed by its classification,
provided that key is one of the initialized bucket keys. -/
theorem mem_bucket_of_classify {rp : String} {tools : List MCPTool}
    {graphs : List (String × List String)} {vulns : List VulnerabilityModel}
    {v : VulnerabilityModel} (hv : v ∈ vulns)
    (hk : classifyVuln rp graphs v ∈ (initToolVulns tools).map Prod.fst) :
    (classifyVuln rp graphs v,
      vulns.filter (fun w => classifyVuln rp graphs w == classifyVuln rp graphs v))
      ∈ groupByTool rp tools graphs vulns
      ∧ v ∈ vulns.filter (fun w => classifyVuln rp graphs w == classifyVuln rp graphs v) := by
  have hvf : v ∈ vulns.filter (fun w => classifyVuln rp graphs w == classifyVuln rp graphs v) :=
    List.mem_filter.mpr ⟨hv, by simp⟩
  refine ⟨?_, hvf⟩
  rw [groupByTool_char]
  apply List.mem_filter.mpr
  constructor
  · rcases List.mem_map.mp hk with ⟨p, hp, hpk⟩
    exact List.mem_map.mpr ⟨p, hp, by rw [hpk]⟩
  · simp only [Bool.not_eq_true', List.isEmpty_eq_false_iff_exists_mem]
    exact ⟨v, hvf⟩

/-! ### Arithmetic lemmas for the totality claim -/

theorem sum_map_add (f g : String → Nat) :
    ∀ (l : List String), (l.map (fun k => f k + g k)).sum = (l.map f).sum + (l.map g).sum
  | [] => rfl
  | k :: ks => by
    simp only [List.map_cons, List.sum_cons, sum_map_add f g ks]
    omega

theorem sum_beq_eq_one {a : String} :
    ∀ {keys : List String}, keys.Nodup → a ∈ keys →
    (keys.map (fun k => if a == k then 1 else 0)).sum = 1 := by
  intro keys
  induction keys with
  | nil => intro _ h; simp at h
  | cons k ks ih =>
    intro hnd hmem
    rcases List.nodup_cons.mp hnd with ⟨hk, hks⟩
    rcases List.mem_cons.mp hmem with he | hm
    · subst he
      simp only [List.map_cons, List.sum_cons, beq_self_eq_true, if_true]
      have hz : (ks.map (fun k => if a == k then 1 else 0)).sum = 0 := by
        apply List.sum_eq_zero
        intro x hx
        rcases List.mem_map.mp hx with ⟨q, hq, he2⟩
        have hne : (a == q) = false := by
          simp only [beq_eq_false_iff_ne, ne_eq]
          exact fun h => hk (h ▸ hq)
        rw [← he2, hne]
        rfl
      omega
    · have hne : (a == k) = false := by
        simp only [beq_eq_false_iff_ne, ne_eq]
        exact fun h => hk (h ▸ hm)
      simp only [List.map_cons, List.sum_cons, hne, ih hks hm]
      simp

theorem sum_filter_partition (cf : VulnerabilityModel → String) :
    ∀ (vulns : List VulnerabilityModel) (keys : List String), keys.Nodup →
    (∀ v ∈ vulns, cf v ∈ keys) →
    (keys.map (fun k => (vulns.filter (fun v => cf v == k)).length)).sum = vulns.length
  | [], keys, _, _ => by simp
  | v :: vs, keys, hnd, hcf => by
    have hstep : keys.map (fun k => (List.filter (fun w => cf w == k) (v :: vs)).length)
        = keys.map (fun k =>
            (if cf v == k then 1 else 0) + (List.filter (fun w => cf w == k) vs).length) := by
      apply List.map_congr_left
      intro k _
      rw [List.filter_cons]
      by_cases h : cf v = k
      · simp [h]
        omega
      · have hne : (cf v == k) = false := by
          simp only [beq_eq_false_iff_ne, ne_eq]
          exact h
        simp [hne]
    rw [hstep, sum_map_add, sum_beq_eq_one hnd (hcf v (List.mem_cons_self _ _)),
      sum_filter_partition cf vs keys hnd (fun w hw => hcf w (List.mem_cons_of_mem _ hw))]
    simp [Nat.add_comm]

theorem sum_lengths_drop_empty :
    ∀ (l : List (String × List VulnerabilityModel)),
    ((l.filter (fun p => !p.2.isEmpty)).map (fun p => p.2.length)).sum
      = (l.map (fun p => p.2.length)).sum
  | [] => rfl
  | p :: rest => by
    rw [List.filter_cons]
    by_cases h : p.2.isEmpty
    · have h0 : p.2.length = 0 := by
        rw [List.isEmpty_iff] at h
        simp [h]
      simp [h, sum_lengths_drop_empty rest, h0]
    · simp [h, sum_lengths_drop_empty rest]

/-! ### Claim C1 -/

/-- C1: for every finding list and every tool-closure map whose keys are
tool names or the fixed categories (the orchestrator invariant: its closure
map is built from the same tool list used to initialize the buckets), the
attribution engine (a) produces buckets whose sizes sum to the number of
findings, (b) makes each bucket exactly the in-input-order sublist of the
findings classified to its key, with no empty bucket in the output, and
(c) places every finding in exactly one output bucket. -/
theorem attribution_totality (rp : String) (tools : List MCPTool)
    (graphs : List (String × List String)) (vulns : List VulnerabilityModel)
    (hg : ∀ p ∈ graphs, p.1 ∈ tools.map MCPTool.name ∨ p.1 = "dependencies" ∨ p.1 = "unknown") :
    ((groupByTool rp tools graphs vulns).map (fun p => p.2.length)).sum = vulns.length
    ∧ (∀ p ∈ groupByTool rp tools graphs vulns,
        p.2 = vulns.filter (fun v => classifyVuln rp graphs v == p.1) ∧ p.2 ≠ [])
    ∧ (∀ v ∈ vulns, ∃ p, p ∈ groupByTool rp tools graphs vulns ∧ v ∈ p.2
        ∧ ∀ q ∈ groupByTool rp tools graphs vulns, v ∈ q.2 → q = p) := by
  refine ⟨?_, ?_, ?_⟩
  · rw [groupByTool_char, sum_lengths_drop_empty, List.map_map]
    have h := sum_filter_partition (classifyVuln rp graphs) vulns
      ((initToolVulns tools).map Prod.fst) (initToolVulns_keys_nodup tools)
      (fun v _ => classify_key_mem hg v)
    rw [List.map_map] at h
    exact h
  · intro p hp
    rw [groupByTool_char] at hp
    rcases List.mem_filter.mp hp with ⟨hpm, hpe⟩
    rcases List.mem_map.mp hpm with ⟨q, _, he⟩
    refine ⟨by rw [← he], fun hnil => ?_⟩
    rw [hnil] at hpe
    simp at hpe
  · intro v hv
    refine ⟨(classifyVuln rp graphs v,
        vulns.filter (fun w => classifyVuln rp graphs w == classifyVuln rp graphs v)),
      (mem_bucket_of_classify hv (classify_key_mem hg v)).1,
      (mem_bucket_of_classify hv (classify_key_mem hg v)).2, ?_⟩
    intro q hq hvq
    rw [groupByTool_char] at hq
    rcases List.mem_filter.mp hq with ⟨hqm, _⟩
    rcases List.mem_map.mp hqm with ⟨u, _, he⟩
    have hq2 : q.2 = vulns.filter (fun w => classifyVuln rp graphs w == q.1) := by
      rw [← he]
    have hq1 : q.1 = u.1 := by rw [← he]
    have hvq2 : v ∈ vulns.filter (fun w => classifyVuln rp graphs w == q.1) := by
      rw [← hq2]
      exact hvq
    have hcv : classifyVuln rp graphs v = q.1 := eq_of_beq (List.mem_filter.mp hvq2).2
    rw [← he, show u.1 = classifyVuln rp graphs v from (hcv.trans hq1).symm]

/-- Witness for C1 at a concrete repository, closure map and finding list. -/
theorem attribution_totality_witness :
    ((groupByTool "/r" wTools wGraphs [wVulnA, wVulnDep, wVulnNone]).map
        (fun p => p.2.length)).sum = [wVulnA, wVulnDep, wVulnNone].length
    ∧ (∀ p ∈ groupByTool "/r" wTools wGraphs [wVulnA, wVulnDep, wVulnNone],
        p.2 = [wVulnA, wVulnDep, wVulnNone].filter
          (fun v => classifyVuln "/r" wGraphs v == p.1) ∧ p.2 ≠ [])
    ∧ (∀ v ∈ [wVulnA, wVulnDep, wVulnNone],
        ∃ p, p ∈ groupByTool "/r" wTools wGraphs [wVulnA, wVulnDep, wVulnNone] ∧ v ∈ p.2
        ∧ ∀ q ∈ groupByTool "/r" wTools wGraphs [wVulnA, wVulnDep, wVulnNone],
            v ∈ q.2 → q = p) :=
  attribution_totality "/r" wTools wGraphs [wVulnA, wVulnDep, wVulnNone] (by decide)

/-! ### Claim C2 -/

/-- C2: a finding whose normalized location has a dependency-manifest base
name is always classified to `dependencies` and appears in that output
bucket, for every closure map — in particular when the same normalized path
is inside some tool closure, so the filename check has priority over closure
matching. -/
theorem dependency_filename_priority (rp : String) (tools : List MCPTool)
    (graphs : List (String × List String)) (vulns : List VulnerabilityModel)
    (v : VulnerabilityModel) (loc : String) (hv : v ∈ vulns)
    (hl : v.file_location = some loc) (hne : loc ≠ "")
    (hdep : baseName (normalizeLoc rp loc) ∈ dependencyFiles) :
    classifyVuln rp graphs v = "dependencies"
    ∧ ∃ b, ("dependencies", b) ∈ groupByTool rp tools graphs vulns ∧ v ∈ b := by
  have hcl : classifyVuln rp graphs v = "dependencies" := by
    unfold classifyVuln
    rw [hl]
    simp [hne, hdep]
  have hk : classifyVuln rp graphs v ∈ (initToolVulns tools).map Prod.fst := by
    rw [hcl]
    exact mem_initToolVulns_keys.mpr (Or.inr (Or.inl rfl))
  have hmem := mem_bucket_of_classify hv hk
  rw [hcl] at hmem
  exact ⟨hcl, vulns.filter (fun w => classifyVuln rp graphs w == "dependencies"),
    hmem.1, hmem.2⟩

/-- Witness for C2: `requirements.txt` is inside tool `A`'s closure in
`wGraphs`, yet the finding lands in the `dependencies` bucket. -/
theorem dependency_filename_priority_witness :
    classifyVuln "/r" wGraphs wVulnDep = "dependencies"
    ∧ ∃ b, ("dependencies", b) ∈ groupByTool "/r" wTools wGraphs [wVulnA, wVulnDep]
        ∧ wVulnDep ∈ b :=
  dependency_filename_priority "/r" wTools wGraphs [wVulnA, wVulnDep] wVulnDep
    "requirements.txt" (by decide) rfl (by decide) (by decide)

/-! ### Claim C8 -/

/-- C8: a finding with an absent file location (Python `None` or the empty
string, both falsy) is always classified to `dependencies` and appears in
that output bucket. -/
theorem missing_location_dependencies (rp : String) (tools : List MCPTool)
    (graphs : List (String × List String)) (vulns : List VulnerabilityModel)
    (v : VulnerabilityModel) (hv : v ∈ vulns)
    (hl : locTruthy v.file_location = false) :
    classifyVuln rp graphs v = "dependencies"
    ∧ ∃ b, ("dependencies", b) ∈ groupByTool rp tools graphs vulns ∧ v ∈ b := by
  have hcl : classifyVuln rp graphs v = "dependencies" := by
    unfold classifyVuln
    cases hfl : v.file_location with
    | none => rfl
    | some s =>
      rw [hfl] at hl
      unfold locTruthy at hl
      simp only [Bool.not_eq_false', beq_iff_eq] at hl
      simp [hl]
  have hk : classifyVuln rp graphs v ∈ (initToolVulns tools).map Prod.fst := by
    rw [hcl]
    exact mem_initToolVulns_keys.mpr (Or.inr (Or.inl rfl))
  have hmem := mem_bucket_of_classify hv hk
  rw [hcl] at hmem
  exact ⟨hcl, vulns.filter (fun w => classifyVuln rp graphs w == "dependencies"),
    hmem.1, hmem.2⟩

/-- Witness for C8 at a concrete finding list with a `None` location. -/
theorem missing_location_dependencies_witness :
    classifyVuln "/r" wGraphs wVulnNone = "dependencies"
    ∧ ∃ b, ("dependencies", b) ∈ groupByTool "/r" wTools wGraphs [wVulnA, wVulnNone]
        ∧ wVulnNone ∈ b :=
  missing_location_dependencies "/r" wTools wGraphs [wVulnA, wVulnNone] wVulnNone
    (by decide) rfl

/-! ### Dict lookup lemmas for the duplicate-name claim -/

theorem dictGet_dictSet_self {α : Type} (d : List (String × α)) (k : String) (v : α) :
    dictGet (dictSet d k v) k = some v := by
  induction d with
  | nil => simp [dictSet, dictGet, List.find?]
  | cons q rest ih =>
    rw [show dictSet (q :: rest) k v
        = if q.1 = k then (k, v) :: rest else q :: dictSet rest k v from rfl]
    split
    · simp [dictGet, List.find?]
    · rename_i h
      unfold dictGet at ih ⊢
      rw [List.find?_cons_of_neg _ (by simpa using h)]
      exact ih

theorem dictGet_dictSet_ne {α : Type} (d : List (String × α)) (k k' : String) (v : α)
    (h : k ≠ k') : dictGet (dictSet d k v) k' = dictGet d k' := by
  have hkk : (k == k') = false := by simpa using h
  induction d with
  | nil => simp [dictSet, dictGet, List.find?_cons, hkk]
  | cons q rest ih =>
    rw [show dictSet (q :: rest) k v
        = if q.1 = k then (k, v) :: rest else q :: dictSet rest k v from rfl]
    split
    · rename_i he
      simp [dictGet, List.find?_cons, hkk, he]
    · unfold dictGet at ih ⊢
      simp only [List.find?_cons]
      cases hq : (q.1 == k') with
      | true => simp [hq]
      | false => simpa [hq] using ih

theorem foldl_dictSet_get_skip {α : Type} (g : MCPTool → α) :
    ∀ (l : List MCPTool) (d : List (String × α)) (k : String),
    (∀ u ∈ l, u.name ≠ k) →
    dictGet (l.foldl (fun d t => dictSet d t.name (g t)) d) k = dictGet d k
  | [], _, _, _ => rfl
  | t :: ts, d, k, h => by
    rw [List.foldl_cons,
      foldl_dictSet_get_skip g ts _ k (fun u hu => h u (List.mem_cons_of_mem _ hu)),
      dictGet_dictSet_ne _ _ _ _ (h t (List.mem_cons_self _ _))]

/-! ### Claim C3 -/

/-- C3: the closure built for a tool always contains the tool's own anchor
file, whatever the repository contents (anchor missing, no resolver for the
language, arbitrary parse results). -/
theorem closure_self_membership (repo : Repo) (t : MCPTool) :
    t.file_path ∈ buildToolGraph repo t := by
  unfold buildToolGraph
  split
  · split
    · exact mem_setUnion_left (List.mem_singleton.mpr rfl)
    · split
      · exact mem_setUnion_left (List.mem_singleton.mpr rfl)
      · exact List.mem_singleton.mpr rfl
  · exact List.mem_singleton.mpr rfl

/-! ### Claim C4 -/

/-- C4: on the two-file repository with a mutual import cycle, the closure
walk reaches the same fixed result at every fuel at least 3 (the recursion
needs only finitely many steps: the per-tool visited set stops the cycle, so
the result is insensitive to any extra fuel, in particular at the
`files.length + 1` fuel the builder uses), and both tools' closures contain
both files. -/
theorem import_cycle_termination :
    (∀ extra : Nat,
      buildPythonGraph cycleRepo (extra + 3) "a.py" []
          = (["b.py", "a.py"], ["b.py", "a.py"])
      ∧ buildPythonGraph cycleRepo (extra + 3) "b.py" []
          = (["a.py", "b.py"], ["a.py", "b.py"]))
    ∧ buildGraphs cycleRepo [cycleToolA, cycleToolB]
        = [("A", ["a.py", "b.py"]), ("B", ["b.py", "a.py"])]
    ∧ "a.py" ∈ buildToolGraph cycleRepo cycleToolA
    ∧ "b.py" ∈ buildToolGraph cycleRepo cycleToolA
    ∧ "a.py" ∈ buildToolGraph cycleRepo cycleToolB
    ∧ "b.py" ∈ buildToolGraph cycleRepo cycleToolB := by
  have ha : buildToolGraph cycleRepo cycleToolA = ["a.py", "b.py"] := rfl
  have hb : buildToolGraph cycleRepo cycleToolB = ["b.py", "a.py"] := rfl
  refine ⟨fun _ => ⟨rfl, rfl⟩, rfl, ?_, ?_, ?_, ?_⟩ <;> simp only [ha, hb] <;> decide

/-! ### Claim C5 -/

/-- C5: when runtime detection runs (enabled, no active event loop) and
returns a non-empty tool list, that list is the final result and the static
extractors are never invoked (the invocation flag is `false`). -/
theorem runtime_detection_shortcircuit (ts staticTools : List MCPTool)
    (isMcp : Bool) (rp : String) (h : ts ≠ []) :
    detectTools true false (Except.ok ts) staticTools isMcp rp = (ts, false) := by
  cases ts with
  | nil => exact absurd rfl h
  | cons a l => rfl

/-- Witness for C5: a non-empty runtime result short-circuits a configuration
whose static phase would have produced a different tool. -/
theorem runtime_detection_shortcircuit_witness :
    detectTools true false (Except.ok [cycleToolA]) [cycleToolB] true "/r"
      = ([cycleToolA], false) :=
  runtime_detection_shortcircuit [cycleToolA] [cycleToolB] true "/r" (by decide)

/-! ### Claim C9 -/

/-- C9: when several tools share one name, the call-graph map ends up holding
the closure of the last such tool in list order (each later assignment
overwrites the earlier closure under that key). -/
theorem duplicate_name_last_wins (repo : Repo) (pre post : List MCPTool) (t : MCPTool)
    (hpost : ∀ u ∈ post, u.name ≠ t.name) :
    dictGet (buildGraphs repo (pre ++ t :: post)) t.name
      = some (buildToolGraph repo t) := by
  unfold buildGraphs
  rw [List.foldl_append, List.foldl_cons,
    foldl_dictSet_get_skip _ post _ _ hpost, dictGet_dictSet_self]

/-- Witness for C9: two tools named `X`; the map holds the second closure. -/
theorem duplicate_name_last_wins_witness :
    dictGet (buildGraphs cycleRepo [dupToolOne, dupToolTwo]) "X"
      = some (buildToolGraph cycleRepo dupToolTwo) :=
  duplicate_name_last_wins cycleRepo [dupToolOne] [] dupToolTwo (by decide)

/-! ### Claim C10 -/

/-- C10: with a detected tool literally named `dependencies` (resp.
`unknown`), findings attributed to that tool through its closure and findings
routed to the fixed category of the same name end up merged, in input order,
in one output bucket under that single key. -/
theorem category_name_collision_merged :
    groupByTool "/r" [depNamedTool] (buildGraphs sharedNameRepo [depNamedTool])
        [wVulnA, wVulnNone, wVulnDep]
      = [("dependencies", [wVulnA, wVulnNone, wVulnDep])]
    ∧ groupByTool "/r" [unkNamedTool] (buildGraphs sharedNameRepo [unkNamedTool])
        [xVulnU, wVulnUnk]
      = [("unknown", [xVulnU, wVulnUnk])] :=
  ⟨rfl, rfl⟩

/-! ### Claim C6 (corrected) -/

/-- C6 counterexample: the finding at the absolute path `/other/x.py`, which
is not under the repo root `/repo`, is NOT treated as if it had no file
location — a locationless finding goes to `dependencies`, but this one is
bucketed to `unknown`. -/
theorem absolute_outside_root_not_absent :
    classifyVuln "/repo" [] wVulnAbs = "unknown"
    ∧ classifyVuln "/repo" [] wVulnNone = "dependencies"
    ∧ groupByTool "/repo" [] [] [wVulnAbs] = [("unknown", [wVulnAbs])]
    ∧ groupByTool "/repo" [] [] [wVulnNone] = [("dependencies", [wVulnNone])] :=
  ⟨rfl, rfl, rfl, rfl⟩

/-- C6 amended, both branches of the normalization of an absolute location:
when `relative_to` succeeds (the path is under the repo root), the location
is replaced by the repository-relative remainder before bucketing; when
`relative_to` raises (the path is not under the root), the engine falls back
to deleting every occurrence of `repoPath ++ "/"` from the string and keeps
bucketing the finding by the normal location rules on that string
(dependency filename, closure match, else `unknown`); in neither case is the
finding treated as locationless — it always lands in the bucket of its
classification. -/
theorem absolute_outside_root_replaced (rp : String) (tools : List MCPTool)
    (graphs : List (String × List String)) (vulns : List VulnerabilityModel)
    (v : VulnerabilityModel) (loc : String) (hv : v ∈ vulns)
    (hg : ∀ p ∈ graphs, p.1 ∈ tools.map MCPTool.name ∨ p.1 = "dependencies" ∨ p.1 = "unknown")
    (hl : v.file_location = some loc) (hne : loc ≠ "")
    (habs : isAbsolutePath loc = true) :
    (∀ r, relativeTo loc rp = some r →
      normalizeLoc rp loc = r
      ∧ classifyVuln rp graphs v =
          (if baseName r ∈ dependencyFiles then "dependencies"
           else
             match graphs.find? (fun g => decide (r ∈ g.2)) with
             | some g => g.1
             | none => "unknown"))
    ∧ (relativeTo loc rp = none →
      normalizeLoc rp loc = pyReplace loc (rp ++ "/") ""
      ∧ classifyVuln rp graphs v =
          (if baseName (pyReplace loc (rp ++ "/") "") ∈ dependencyFiles then "dependencies"
           else
             match graphs.find? (fun g => decide (pyReplace loc (rp ++ "/") "" ∈ g.2)) with
             | some g => g.1
             | none => "unknown"))
    ∧ ∃ b, (classifyVuln rp graphs v, b) ∈ groupByTool rp tools graphs vulns ∧ v ∈ b := by
  refine ⟨?_, ?_,
    vulns.filter (fun w => classifyVuln rp graphs w == classifyVuln rp graphs v),
    (mem_bucket_of_classify hv (classify_key_mem hg v)).1,
    (mem_bucket_of_classify hv (classify_key_mem hg v)).2⟩
  · intro r hr
    have h1 : normalizeLoc rp loc = r := by
      unfold normalizeLoc
      rw [hr, if_pos habs]
    refine ⟨h1, ?_⟩
    unfold classifyVuln
    rw [hl]
    simp only [if_neg hne, h1]
  · intro hrel
    have h1 : normalizeLoc rp loc = pyReplace loc (rp ++ "/") "" := by
      unfold normalizeLoc
      rw [hrel, if_pos habs]
    refine ⟨h1, ?_⟩
    unfold classifyVuln
    rw [hl]
    simp only [if_neg hne, h1]

/-- Witness for the amended C6: the under-root finding `/repo/a/x.py` is
normalized to the repository-relative `a/x.py` before bucketing, and the
outside-root finding `/other/x.py` keeps its (unchanged, since the root
prefix does not occur) replaced string and is bucketed to `unknown`. -/
theorem absolute_outside_root_replaced_witness :
    (normalizeLoc "/repo" "/repo/a/x.py" = "a/x.py"
      ∧ normalizeLoc "/repo" "/other/x.py" = pyReplace "/other/x.py" ("/repo" ++ "/") "")
    ∧ classifyVuln "/repo" wGraphs wVulnUnder = "unknown"
    ∧ classifyVuln "/repo" wGraphs wVulnAbs = "unknown"
    ∧ (∃ b, (classifyVuln "/repo" wGraphs wVulnAbs, b)
        ∈ groupByTool "/repo" wTools wGraphs [wVulnAbs] ∧ wVulnAbs ∈ b) := by
  have hu := absolute_outside_root_replaced "/repo" wTools wGraphs [wVulnUnder] wVulnUnder
    "/repo/a/x.py" (by decide) (by decide) rfl (by decide) rfl
  have ha := absolute_outside_root_replaced "/repo" wTools wGraphs [wVulnAbs] wVulnAbs
    "/other/x.py" (by decide) (by decide) rfl (by decide) rfl
  refine ⟨⟨(hu.1 "a/x.py" (by decide)).1, (ha.2.1 (by decide)).1⟩, ?_, ?_, ha.2.2⟩
  · rw [(hu.1 "a/x.py" (by decide)).2]
    decide
  · rw [(ha.2.1 (by decide)).2]
    decide

/-! ### Claim C7 (corrected) -/

/-- C7 counterexample: the synthesized placeholder tool does not have empty
metadata — its description is `MCP server with undetected tools` and its
language is `unknown` — and its anchor path is the configured repository root
string exactly as given (here an absolute path, not a repository-relative
one). -/
theorem placeholder_metadata_not_empty :
    detectTools false false (Except.error ()) [] true "/repo"
      = ([placeholderTool "/repo"], true)
    ∧ (placeholderTool "/repo").description = "MCP server with undetected tools"
    ∧ ¬(placeholderTool "/repo").description = ""
    ∧ (placeholderTool "/repo").language = "unknown"
    ∧ ¬(placeholderTool "/repo").language = ""
    ∧ (placeholderTool "/repo").file_path = "/repo" :=
  ⟨rfl, rfl, by decide, rfl, by decide, rfl⟩

/-- C7 amended: whenever the static phase runs (no runtime result was
accepted) with an empty static concatenation and the project signal matches,
the coordinator returns exactly one placeholder tool named `unknown`,
anchored at the repository root path exactly as configured, with description
`MCP server with undetected tools`, line number 0 and language `unknown`. -/
theorem placeholder_tool_shape (useRuntime loopRunning : Bool)
    (runtime : Except Unit (List MCPTool)) (rp : String)
    (h : (detectTools useRuntime loopRunning runtime [] true rp).2 = true) :
    (detectTools useRuntime loopRunning runtime [] true rp).1
      = [⟨"unknown", rp, "MCP server with undetected tools", 0, "unknown"⟩] := by
  cases useRuntime with
  | false => rfl
  | true =>
    cases loopRunning with
    | true => rfl
    | false =>
      cases runtime with
      | error e => rfl
      | ok ts =>
        cases ts with
        | nil => rfl
        | cons a l => exact absurd h (by simp [detectTools])

/-- Witness for the amended C7. -/
theorem placeholder_tool_shape_witness :
    (detectTools false false (Except.error ()) [] true "/repo").1
      = [⟨"unknown", "/repo", "MCP server with undetected tools", 0, "unknown"⟩] :=
  placeholder_tool_shape false false (Except.error ()) "/repo" rfl

end Vmcp

example : Vmcp.splitChar '.' "a.b" = ["a", "b"] := rfl

example : Vmcp.pathComps "/repo/x.py" = ["repo", "x.py"] := rfl

example : Vmcp.baseName "a/b/requirements.txt" = "requirements.txt" := by decide

example : Vmcp.relativeTo "/repo/a/x.py" "/repo" = some "a/x.py" := by decide

example : Vmcp.relativeTo "/other/x.py" "/repo" = none := by decide

example : Vmcp.relativeTo "/repo" "/repo" = some "." := by decide

example : Vmcp.pyReplace "/data/repo/x.py" "/repo/" "" = "/datax.py" := by decide

example : Vmcp.pathSuffix "a/b.tar.gz" = ".gz" := by decide

example : Vmcp.pathSuffix "a/.hidden" = "" := by decide
